import Mathlib

/-!
Shallow embedding of `zcash_client_backend/src/tor/http/exchange_rate.rs`.

Conventions of the embedding:
- `rust_decimal::Decimal` values are embedded as exact rationals `ℚ`; the
  aggregation logic only compares, adds and halves them.
- `u64`/`u32` fields are embedded as `Nat`, `String` fields as `String`.
- Fallible operations (`Result<T, Error>`) become `Except Error T`.
- The network fetch itself is outside the aggregator: each venue query's
  outcome is passed in as an `Except Error` value, and the aggregation is a
  pure function of the six outcomes.
- The random index drawn by `(0..s.len()).choose(&mut thread_rng())` is
  modelled by a `Nat` parameter `i`; the chosen index is `i % s.length`
  when the list is non-empty (the range is empty, and `choose` yields
  `None`, exactly when the list is empty).
- The two panic points of the function (`assert!` and `.expect(...)`), plus
  out-of-range indexing, are modelled by an explicit `panic` outcome.
-/

namespace ExchangeRate

/-- Modelled from the spec: the currency code type `iso_currency::Currency`
is external to the sources (only `Currency::USD` is matched; every other
code falls through a wildcard arm). A representative finite sample of codes
is enough, since routing treats all non-USD codes identically. -/
inductive Currency where
  | USD
  | EUR
  | GBP
  | JPY
  | CHF
  | AUD
  | CAD
deriving DecidableEq

/-- Modelled from the spec: HTTP-level failure of the transport collaborator;
the code in scope only ever constructs the unsuccessful-status form, with
status `410 Gone` as the empty-result sentinel. -/
inductive HttpError where
  | unsuccessful (status : Nat) : HttpError
  | otherHttp (tag : Nat) : HttpError
deriving DecidableEq

/-- Modelled from the spec: `crate::tor::Error` is external to the sources;
venue errors are transport, HTTP-status or decode failures. Only the
`http` form is constructed by the code in scope, the rest stay abstract. -/
inductive Error where
  | http (e : HttpError) : Error
  | otherErr (tag : Nat) : Error
deriving DecidableEq

/-- Embedding of `hyper::StatusCode::GONE`. -/
def statusGone : Nat := 410

/-- Embedding of `enum ExchangePair { Usd }`. -/
inductive ExchangePair where
  | Usd
deriving DecidableEq

/-- Embedding of `ExchangePair::get`: only `Currency::USD` resolves. -/
def ExchangePair.get : Currency → Option ExchangePair
  | Currency.USD => some ExchangePair.Usd
  | _ => none

/-- Embedding of `ExchangePair::binance`. -/
def ExchangePair.binanceSymbol : ExchangePair → String
  | ExchangePair.Usd => "ZECUSDT"

/-- Embedding of `ExchangePair::coinbase`. -/
def ExchangePair.coinbaseSymbol : ExchangePair → String
  | ExchangePair.Usd => "ZEC-USD"

/-- Embedding of `ExchangePair::gate_io`. -/
def ExchangePair.gateIoSymbol : ExchangePair → String
  | ExchangePair.Usd => "ZEC_USDT"

/-- Embedding of `ExchangePair::gemini`. -/
def ExchangePair.geminiSymbol : ExchangePair → String
  | ExchangePair.Usd => "zecusd"

/-- Embedding of `ExchangePair::ku_coin`. -/
def ExchangePair.kuCoinSymbol : ExchangePair → String
  | ExchangePair.Usd => "ZEC-USDT"

/-- Embedding of `ExchangePair::mexc`. -/
def ExchangePair.mexcSymbol : ExchangePair → String
  | ExchangePair.Usd => "ZECUSDT"

/-- Embedding of `trait ExchangeData`: the two required accessors. -/
class ExchangeData (α : Type) where
  bid : α → ℚ
  ask : α → ℚ

/-- Embedding of the provided method `ExchangeData::price`:
`(self.bid() + self.ask()) / Decimal::TWO`. No adapter overrides it. -/
def ExchangeData.price {α : Type} [ExchangeData α] (a : α) : ℚ :=
  (ExchangeData.bid a + ExchangeData.ask a) / 2

/-- Embedding of the `Binance` wire struct. -/
structure Binance where
  symbol : String
  priceChange : ℚ
  priceChangePercent : ℚ
  weightedAvgPrice : ℚ
  prevClosePrice : ℚ
  lastPrice : ℚ
  lastQty : ℚ
  bidPrice : ℚ
  bidQty : ℚ
  askPrice : ℚ
  askQty : ℚ
  openPrice : ℚ
  highPrice : ℚ
  lowPrice : ℚ
  volume : ℚ
  quoteVolume : ℚ
  openTime : Nat
  closeTime : Nat
  firstId : Nat
  lastId : Nat
  count : Nat
deriving DecidableEq

instance : ExchangeData Binance where
  bid b := b.bidPrice
  ask b := b.askPrice

/-- Embedding of the `Coinbase` wire struct. -/
structure Coinbase where
  ask : ℚ
  bid : ℚ
  volume : ℚ
  trade_id : Nat
  price : ℚ
  size : ℚ
  time : String
  rfq_volume : Option ℚ
  conversions_volume : Option ℚ
deriving DecidableEq

instance : ExchangeData Coinbase where
  bid c := c.bid
  ask c := c.ask

/-- Embedding of the `GateIo` wire struct. -/
structure GateIo where
  currency_pair : String
  last : ℚ
  lowest_ask : ℚ
  highest_bid : ℚ
  change_percentage : ℚ
  base_volume : ℚ
  quote_volume : ℚ
  high_24h : ℚ
  low_24h : ℚ
deriving DecidableEq

instance : ExchangeData GateIo where
  bid g := g.highest_bid
  ask g := g.lowest_ask

/-- Embedding of the `Gemini` wire struct; the source field named `open` is
rendered with guillemets because `open` is a Lean keyword. -/
structure Gemini where
  symbol : String
  «open» : ℚ
  high : ℚ
  low : ℚ
  close : ℚ
  changes : List ℚ
  bid : ℚ
  ask : ℚ
deriving DecidableEq

instance : ExchangeData Gemini where
  bid g := g.bid
  ask g := g.ask

/-- Embedding of the `KuCoin` wire struct. -/
structure KuCoin where
  time : Nat
  symbol : String
  buy : ℚ
  sell : ℚ
  changeRate : ℚ
  changePrice : ℚ
  high : ℚ
  low : ℚ
  vol : ℚ
  volValue : ℚ
  last : ℚ
  averagePrice : ℚ
  takerFeeRate : ℚ
  makerFeeRate : ℚ
  takerCoefficient : ℚ
  makerCoefficient : ℚ
deriving DecidableEq

instance : ExchangeData KuCoin where
  bid k := k.buy
  ask k := k.sell

/-- Embedding of the `Mexc` wire struct. -/
structure Mexc where
  symbol : String
  priceChange : ℚ
  priceChangePercent : ℚ
  prevClosePrice : ℚ
  lastPrice : ℚ
  bidPrice : ℚ
  bidQty : ℚ
  askPrice : ℚ
  askQty : ℚ
  openPrice : ℚ
  highPrice : ℚ
  lowPrice : ℚ
  volume : ℚ
  quoteVolume : ℚ
  openTime : Nat
  closeTime : Nat
deriving DecidableEq

instance : ExchangeData Mexc where
  bid m := m.bidPrice
  ask m := m.askPrice

/-- Embedding of the post-transport part of `GateIo::query`: once the body
has been fetched and decoded as `Vec<GateIo>`, take the first element, or
fail with `Error::Http(HttpError::Unsuccessful(StatusCode::GONE))` when the
list is empty; a transport or decode failure propagates unchanged via `?`. -/
def GateIo.query (transport : Except Error (List GateIo)) : Except Error GateIo :=
  match transport with
  | Except.error e => Except.error e
  | Except.ok body =>
      match body.head? with
      | some t => Except.ok t
      | none => Except.error (Error.http (HttpError.unsuccessful statusGone))

/-- Embedding of the inner `fn split`: a success pushes its mid-price onto
the price list, a failure pushes its error onto the error list. -/
def split {T : Type} [ExchangeData T] (s : List ℚ) (e : List Error)
    (res : Except Error T) : List ℚ × List Error :=
  match res with
  | Except.ok d => (s ++ [ExchangeData.price d], e)
  | Except.error err => (s, e ++ [err])

/-- Embedding of the five `split` calls, in source order Binance, Coinbase,
GateIo, KuCoin, Mexc; Gemini is handled separately, excluded from eviction. -/
def othersAndErrors (b : Except Error Binance) (cb : Except Error Coinbase)
    (gi : Except Error GateIo) (kc : Except Error KuCoin)
    (mx : Except Error Mexc) : List ℚ × List Error :=
  let pe := split [] [] b
  let pe := split pe.1 pe.2 cb
  let pe := split pe.1 pe.2 gi
  let pe := split pe.1 pe.2 kc
  split pe.1 pe.2 mx

/-- Embedding of the closure `evict_random`: `(0..s.len()).choose(rng)`
yields no index exactly when the list is empty (then nothing is removed);
otherwise an index in `0..s.len()` is drawn, modelled as `i % s.length`,
and the element there is removed. -/
def evict_random (i : Nat) (s : List ℚ) : List ℚ :=
  if s.length = 0 then s else s.eraseIdx (i % s.length)

/-- Embedding of the Gemini held-out step (the `if let Ok(gemini)` block):
when Gemini succeeded, evict a random element exactly when the price count
is odd, then append Gemini's mid-price; when Gemini failed, evict a random
element exactly when the price count is even, and append nothing. -/
def heldOutStep (i : Nat) (gemini : Option ℚ) (prices : List ℚ) : List ℚ :=
  match gemini with
  | some g => (if prices.length % 2 ≠ 0 then evict_random i prices else prices) ++ [g]
  | none => if prices.length % 2 = 0 then evict_random i prices else prices

/-- Embedding of `gemini.price()` applied to the held-out query outcome. -/
def geminiMid : Except Error Gemini → Option ℚ
  | Except.ok g => some (ExchangeData.price g)
  | Except.error _ => none

/-- Embedding of `prices.sort()`: ascending sort. Rust's stable sort and
insertion sort agree on `ℚ`, since sorted permutations of a list are equal
under a linear order. -/
def sortPrices (l : List ℚ) : List ℚ :=
  l.insertionSort (· ≤ ·)

/-- Embedding of the median selection: sort, then index `len / 2`;
`none` corresponds to an out-of-range index (a Rust panic). -/
def medianOf (l : List ℚ) : Option ℚ :=
  (sortPrices l)[l.length / 2]?

/-- Outcome of one `get_exchange_rate` call. `panic` stands for the
function's panic points: the `expect` on an empty error list, the
`assert!(prices.len() % 2 != 0)`, and out-of-range indexing. -/
inductive AggResult where
  | ok (rate : Option ℚ) : AggResult
  | err (e : Error) : AggResult
  | panic : AggResult
deriving DecidableEq

/-- The price list that reaches the median step: the five non-held-out
outcomes are partitioned, then the Gemini held-out/eviction step runs. -/
def finalPrices (i : Nat) (b : Except Error Binance) (cb : Except Error Coinbase)
    (gi : Except Error GateIo) (gm : Except Error Gemini)
    (kc : Except Error KuCoin) (mx : Except Error Mexc) : List ℚ :=
  heldOutStep i (geminiMid gm) (othersAndErrors b cb gi kc mx).1

/-- Embedding of `Client::get_exchange_rate`. The six query outcomes are
parameters (the fetch is the transport collaborator's job); `i` models the
random index source for eviction. An unsupported currency returns
`Ok(None)` before any venue outcome is inspected. -/
def get_exchange_rate (i : Nat) (cur : Currency) (b : Except Error Binance)
    (cb : Except Error Coinbase) (gi : Except Error GateIo)
    (gm : Except Error Gemini) (kc : Except Error KuCoin)
    (mx : Except Error Mexc) : AggResult :=
  match ExchangePair.get cur with
  | none => AggResult.ok none
  | some _ =>
      let prices := heldOutStep i (geminiMid gm) (othersAndErrors b cb gi kc mx).1
      let errors := (othersAndErrors b cb gi kc mx).2
      if prices.isEmpty then
        match errors with
        | [] => AggResult.panic
        | e :: _ => AggResult.err e
      else if prices.length % 2 = 0 then
        AggResult.panic
      else
        match medianOf prices with
        | some p => AggResult.ok (some p)
        | none => AggResult.panic

/-- Success predicate on a venue outcome. -/
def isOkQ {α : Type} (r : Except Error α) : Prop :=
  ∃ v, r = Except.ok v

/-- Failure predicate on a venue outcome. -/
def isErrQ {α : Type} (r : Except Error α) : Prop :=
  ∃ e, r = Except.error e

/-- Every venue outcome is a success or a failure. -/
theorem ok_or_err {α : Type} (r : Except Error α) : isOkQ r ∨ isErrQ r := by
  cases r with
  | error e => exact Or.inr ⟨e, rfl⟩
  | ok v => exact Or.inl ⟨v, rfl⟩

/-- Eviction from a non-empty list removes exactly one element. -/
theorem evict_random_length (i : Nat) (s : List ℚ) (h : s ≠ []) :
    (evict_random i s).length = s.length - 1 := by
  have hlen : s.length ≠ 0 := fun hz => h (List.length_eq_zero.mp hz)
  have hpos : 0 < s.length := Nat.pos_of_ne_zero hlen
  unfold evict_random
  rw [if_neg hlen, List.length_eraseIdx, if_pos (Nat.mod_lt i hpos)]

/-- Eviction from a non-empty list yields `eraseIdx` at the drawn index. -/
theorem evict_random_eq_eraseIdx (i : Nat) (s : List ℚ) (h : s ≠ []) :
    evict_random i s = s.eraseIdx (i % s.length) := by
  have hlen : s.length ≠ 0 := fun hz => h (List.length_eq_zero.mp hz)
  unfold evict_random
  rw [if_neg hlen]

/-- Unfolding of the held-out step on a successful Gemini query. -/
theorem heldOutStep_some (i : Nat) (g : ℚ) (p : List ℚ) :
    heldOutStep i (some g) p =
      (if p.length % 2 ≠ 0 then evict_random i p else p) ++ [g] := rfl

/-- Unfolding of the held-out step on a failed Gemini query. -/
theorem heldOutStep_none (i : Nat) (p : List ℚ) :
    heldOutStep i none p = if p.length % 2 = 0 then evict_random i p else p := rfl

/-- With a successful held-out query the resulting list always has odd length. -/
theorem heldOutStep_some_length (i : Nat) (g : ℚ) (p : List ℚ) :
    (heldOutStep i (some g) p).length % 2 = 1 := by
  rw [heldOutStep_some]
  by_cases hpar : p.length % 2 ≠ 0
  · have hne : p ≠ [] := by
      intro hnil
      subst hnil
      simp at hpar
    rw [if_pos hpar, List.length_append, evict_random_length i p hne]
    have hpos : 0 < p.length := List.length_pos.mpr hne
    simp only [List.length_cons, List.length_nil]
    omega
  · rw [if_neg hpar, List.length_append]
    simp only [not_not] at hpar
    simp only [List.length_cons, List.length_nil]
    omega

/-- With a failed held-out query the step returns the empty list exactly on
empty input. -/
theorem heldOutStep_none_eq_nil_iff (i : Nat) (p : List ℚ) :
    heldOutStep i none p = [] ↔ p = [] := by
  rw [heldOutStep_none]
  constructor
  · intro h
    by_contra hne
    have hpos : 0 < p.length := List.length_pos.mpr hne
    by_cases hpar : p.length % 2 = 0
    · rw [if_pos hpar, evict_random_eq_eraseIdx i p hne] at h
      have := List.length_eraseIdx (l := p) (i := i % p.length)
      rw [h] at this
      rw [if_pos (Nat.mod_lt i hpos)] at this
      simp only [List.length_nil] at this
      omega
    · rw [if_neg hpar] at h
      exact hne h
  · intro h
    subst h
    simp [evict_random]

/-- With a failed held-out query and non-empty input the step yields an
odd-length list. -/
theorem heldOutStep_none_length (i : Nat) (p : List ℚ) (h : p ≠ []) :
    (heldOutStep i none p).length % 2 = 1 := by
  rw [heldOutStep_none]
  have hpos : 0 < p.length := List.length_pos.mpr h
  by_cases hpar : p.length % 2 = 0
  · rw [if_pos hpar, evict_random_length i p h]
    omega
  · rw [if_neg hpar]
    omega

/-- The held-out step returns the empty list exactly when the held-out query
failed and the incoming list is empty. -/
theorem heldOutStep_eq_nil_iff (i : Nat) (gm : Option ℚ) (p : List ℚ) :
    heldOutStep i gm p = [] ↔ gm = none ∧ p = [] := by
  cases gm with
  | some g => simp [heldOutStep]
  | none => simp [heldOutStep_none_eq_nil_iff]

/-- A non-empty held-out-step result always has odd length. -/
theorem heldOutStep_odd_of_ne_nil (i : Nat) (gm : Option ℚ) (p : List ℚ)
    (h : heldOutStep i gm p ≠ []) :
    (heldOutStep i gm p).length % 2 = 1 := by
  cases gm with
  | some g => exact heldOutStep_some_length i g p
  | none =>
      have hp : p ≠ [] := fun hnil => h ((heldOutStep_none_eq_nil_iff i p).mpr hnil)
      exact heldOutStep_none_length i p hp

/-- The partition produces five outcomes in total. -/
theorem othersAndErrors_length (b : Except Error Binance) (cb : Except Error Coinbase)
    (gi : Except Error GateIo) (kc : Except Error KuCoin) (mx : Except Error Mexc) :
    (othersAndErrors b cb gi kc mx).1.length + (othersAndErrors b cb gi kc mx).2.length = 5 := by
  cases b <;> cases cb <;> cases gi <;> cases kc <;> cases mx <;>
    simp [othersAndErrors, split]

/-- The non-held-out price list is empty exactly when all five queries failed. -/
theorem othersAndErrors_nil_iff (b : Except Error Binance) (cb : Except Error Coinbase)
    (gi : Except Error GateIo) (kc : Except Error KuCoin) (mx : Except Error Mexc) :
    (othersAndErrors b cb gi kc mx).1 = [] ↔
      isErrQ b ∧ isErrQ cb ∧ isErrQ gi ∧ isErrQ kc ∧ isErrQ mx := by
  cases b <;> cases cb <;> cases gi <;> cases kc <;> cases mx <;>
    simp [othersAndErrors, split, isErrQ]

/-- The held-out mid-price is absent exactly when the Gemini query failed. -/
theorem geminiMid_eq_none_iff (gm : Except Error Gemini) :
    geminiMid gm = none ↔ isErrQ gm := by
  cases gm <;> simp [geminiMid, isErrQ]

/-- The final price list is empty exactly when all six queries failed. -/
theorem finalPrices_eq_nil_iff (i : Nat) (b : Except Error Binance)
    (cb : Except Error Coinbase) (gi : Except Error GateIo) (gm : Except Error Gemini)
    (kc : Except Error KuCoin) (mx : Except Error Mexc) :
    finalPrices i b cb gi gm kc mx = [] ↔
      isErrQ b ∧ isErrQ cb ∧ isErrQ gi ∧ isErrQ gm ∧ isErrQ kc ∧ isErrQ mx := by
  unfold finalPrices
  rw [heldOutStep_eq_nil_iff, othersAndErrors_nil_iff, geminiMid_eq_none_iff]
  tauto

/-- Median of a non-empty list exists and is one of its elements. -/
theorem medianOf_mem (l : List ℚ) (h : l ≠ []) :
    ∃ p, medianOf l = some p ∧ p ∈ l := by
  have hperm : (sortPrices l).Perm l := List.perm_insertionSort _ l
  have hlen : (sortPrices l).length = l.length := hperm.length_eq
  have hpos : 0 < l.length := List.length_pos.mpr h
  have hidx : l.length / 2 < (sortPrices l).length := by
    rw [hlen]
    exact Nat.div_lt_self hpos (by omega)
  refine ⟨(sortPrices l)[l.length / 2], ?_, ?_⟩
  · exact List.getElem?_eq_getElem hidx
  · exact hperm.mem_iff.mp (List.getElem_mem hidx)

/-- Unfolding of the supported-currency run in terms of the final price list. -/
theorem get_exchange_rate_usd_eq (i : Nat) (b : Except Error Binance)
    (cb : Except Error Coinbase) (gi : Except Error GateIo) (gm : Except Error Gemini)
    (kc : Except Error KuCoin) (mx : Except Error Mexc) :
    get_exchange_rate i Currency.USD b cb gi gm kc mx =
      (if (finalPrices i b cb gi gm kc mx).isEmpty then
        match (othersAndErrors b cb gi kc mx).2 with
        | [] => AggResult.panic
        | e :: _ => AggResult.err e
      else if (finalPrices i b cb gi gm kc mx).length % 2 = 0 then
        AggResult.panic
      else
        match medianOf (finalPrices i b cb gi gm kc mx) with
        | some p => AggResult.ok (some p)
        | none => AggResult.panic) := rfl

/-- A supported-currency run with a non-empty final price list returns the
median, which is a member of the final list. -/
theorem run_usd_nonempty (i : Nat) (b : Except Error Binance)
    (cb : Except Error Coinbase) (gi : Except Error GateIo) (gm : Except Error Gemini)
    (kc : Except Error KuCoin) (mx : Except Error Mexc)
    (h : finalPrices i b cb gi gm kc mx ≠ []) :
    ∃ p, get_exchange_rate i Currency.USD b cb gi gm kc mx = AggResult.ok (some p) ∧
      medianOf (finalPrices i b cb gi gm kc mx) = some p ∧
      p ∈ finalPrices i b cb gi gm kc mx := by
  obtain ⟨p, hmed, hmem⟩ := medianOf_mem _ h
  have hodd : (finalPrices i b cb gi gm kc mx).length % 2 = 1 :=
    heldOutStep_odd_of_ne_nil i _ _ h
  refine ⟨p, ?_, hmed, hmem⟩
  rw [get_exchange_rate_usd_eq]
  rw [if_neg (by simp [List.isEmpty_iff, h]), if_neg (by omega), hmed]

/-- A supported-currency run with an empty final price list returns the head
of the (non-empty) error list. -/
theorem run_usd_empty (i : Nat) (b : Except Error Binance)
    (cb : Except Error Coinbase) (gi : Except Error GateIo) (gm : Except Error Gemini)
    (kc : Except Error KuCoin) (mx : Except Error Mexc)
    (h : finalPrices i b cb gi gm kc mx = []) :
    ∃ e es, (othersAndErrors b cb gi kc mx).2 = e :: es ∧
      get_exchange_rate i Currency.USD b cb gi gm kc mx = AggResult.err e := by
  have hnil : (othersAndErrors b cb gi kc mx).1 = [] :=
    ((heldOutStep_eq_nil_iff i _ _).mp h).2
  have hlen := othersAndErrors_length b cb gi kc mx
  rw [hnil] at hlen
  simp only [List.length_nil, Nat.zero_add] at hlen
  cases herr : (othersAndErrors b cb gi kc mx).2 with
  | nil =>
      rw [herr] at hlen
      simp at hlen
  | cons e es =>
      refine ⟨e, es, rfl, ?_⟩
      rw [get_exchange_rate_usd_eq, if_pos (by simp [List.isEmpty_iff, h]), herr]

/-- Routing fails exactly on non-USD currencies. -/
theorem exchangePair_get_eq_none_iff (cur : Currency) :
    ExchangePair.get cur = none ↔ cur ≠ Currency.USD := by
  cases cur <;> simp [ExchangePair.get]

/-- An unsupported currency short-circuits to `Ok(None)`, whatever the six
venue outcomes are. -/
theorem get_exchange_rate_unsupported (i : Nat) (cur : Currency)
    (b : Except Error Binance) (cb : Except Error Coinbase) (gi : Except Error GateIo)
    (gm : Except Error Gemini) (kc : Except Error KuCoin) (mx : Except Error Mexc)
    (h : cur ≠ Currency.USD) :
    get_exchange_rate i cur b cb gi gm kc mx = AggResult.ok none := by
  unfold get_exchange_rate
  rw [(exchangePair_get_eq_none_iff cur).mpr h]

/-- An outcome cannot be both a success and a failure. -/
theorem not_ok_and_err {α : Type} (r : Except Error α) : ¬(isOkQ r ∧ isErrQ r) := by
  rintro ⟨⟨v, hv⟩, ⟨e, he⟩⟩
  rw [hv] at he
  simp at he

/-- Sorting is a permutation of the input. -/
theorem sortPrices_perm (l : List ℚ) : (sortPrices l).Perm l :=
  List.perm_insertionSort _ l

/-- Sorting yields an ascending list. -/
theorem sortPrices_sorted (l : List ℚ) : List.Sorted (· ≤ ·) (sortPrices l) :=
  List.sorted_insertionSort _ l

/-- C1: after partitioning the five non-held-out results into `others`, the
held-out step behaves as follows. If the Gemini query succeeded, exactly when
`others` has odd length one element is removed — at the drawn index, and every
index is reachable by some draw — and afterwards the held-out mid-price is
appended; at even length the list is kept whole and the mid-price appended.
If the Gemini query failed, exactly when `others` has even non-zero length one
element is removed, and nothing is appended. The equations fully determine the
step, so no other element is added or removed. The last conjunct ties the step
to `get_exchange_rate`: the final price list is exactly this step applied to
the partitioned prices. -/
theorem heldout_eviction_parity (i : Nat) (g : ℚ) (others : List ℚ) :
    ((others.length % 2 ≠ 0 →
        heldOutStep i (some g) others = others.eraseIdx (i % others.length) ++ [g] ∧
          (heldOutStep i (some g) others).length = others.length) ∧
      (others.length % 2 = 0 → heldOutStep i (some g) others = others ++ [g]) ∧
      (∀ j, j < others.length → others.length % 2 ≠ 0 →
        ∃ k, heldOutStep k (some g) others = others.eraseIdx j ++ [g])) ∧
    ((others.length % 2 = 0 → others ≠ [] →
        heldOutStep i none others = others.eraseIdx (i % others.length) ∧
          (heldOutStep i none others).length = others.length - 1) ∧
      (others.length % 2 ≠ 0 → heldOutStep i none others = others) ∧
      (heldOutStep i none [] = []) ∧
      (∀ j, j < others.length → others.length % 2 = 0 →
        ∃ k, heldOutStep k none others = others.eraseIdx j)) ∧
    (∀ (b : Except Error Binance) (cb : Except Error Coinbase) (gi : Except Error GateIo)
        (gm : Except Error Gemini) (kc : Except Error KuCoin) (mx : Except Error Mexc),
      finalPrices i b cb gi gm kc mx =
        heldOutStep i (geminiMid gm) (othersAndErrors b cb gi kc mx).1) := by
  refine ⟨⟨?_, ?_, ?_⟩, ⟨?_, ?_, rfl, ?_⟩, fun _ _ _ _ _ _ => rfl⟩
  · intro hodd
    have hne : others ≠ [] := by
      intro hnil
      subst hnil
      simp at hodd
    rw [heldOutStep_some, if_pos hodd, evict_random_eq_eraseIdx i others hne]
    refine ⟨rfl, ?_⟩
    rw [List.length_append, List.length_eraseIdx,
      if_pos (Nat.mod_lt i (List.length_pos.mpr hne))]
    have hpos := List.length_pos.mpr hne
    simp only [List.length_cons, List.length_nil]
    omega
  · intro heven
    rw [heldOutStep_some, if_neg (by omega)]
  · intro j hj hodd
    have hne : others ≠ [] := by
      intro hnil
      subst hnil
      simp at hj
    exact ⟨j, by rw [heldOutStep_some, if_pos hodd,
      evict_random_eq_eraseIdx j others hne, Nat.mod_eq_of_lt hj]⟩
  · intro heven hne
    rw [heldOutStep_none, if_pos heven, evict_random_eq_eraseIdx i others hne]
    refine ⟨rfl, ?_⟩
    rw [List.length_eraseIdx, if_pos (Nat.mod_lt i (List.length_pos.mpr hne))]
  · intro hodd
    rw [heldOutStep_none, if_neg hodd]
  · intro j hj heven
    have hne : others ≠ [] := by
      intro hnil
      subst hnil
      simp at hj
    exact ⟨j, by rw [heldOutStep_none, if_pos heven,
      evict_random_eq_eraseIdx j others hne, Nat.mod_eq_of_lt hj]⟩

/-- Witness for `heldout_eviction_parity` at concrete inputs: with Gemini
succeeding and three prices one is evicted before the append; with Gemini
failing and two prices one is evicted and nothing is appended. -/
theorem heldout_eviction_parity_witness :
    heldOutStep 1 (some 5) [1, 2, 3] = ([1, 2, 3] : List ℚ).eraseIdx (1 % 3) ++ [5] ∧
      heldOutStep 0 none [4, 6] = ([4, 6] : List ℚ).eraseIdx (0 % 2) := by
  refine ⟨((heldout_eviction_parity 1 5 [1, 2, 3]).1.1 (by decide)).1, ?_⟩
  exact ((heldout_eviction_parity 0 5 [4, 6]).2.1.1 (by decide) (by decide)).1

/-- C2: outcome trichotomy of `get_exchange_rate`. The result is `Ok(None)`
exactly when the currency is unsupported (only USD is supported; in that case
the venue outcomes are never inspected, as the quantification shows); an
error exactly when the currency is supported and all six venue queries
failed; and `Ok(Some _)` exactly when the currency is supported and at least
one venue query succeeded. -/
theorem get_exchange_rate_outcome_trichotomy (i : Nat) (cur : Currency)
    (b : Except Error Binance) (cb : Except Error Coinbase) (gi : Except Error GateIo)
    (gm : Except Error Gemini) (kc : Except Error KuCoin) (mx : Except Error Mexc) :
    (get_exchange_rate i cur b cb gi gm kc mx = AggResult.ok none ↔
      cur ≠ Currency.USD) ∧
    ((∃ e, get_exchange_rate i cur b cb gi gm kc mx = AggResult.err e) ↔
      (cur = Currency.USD ∧ isErrQ b ∧ isErrQ cb ∧ isErrQ gi ∧ isErrQ gm ∧
        isErrQ kc ∧ isErrQ mx)) ∧
    ((∃ p, get_exchange_rate i cur b cb gi gm kc mx = AggResult.ok (some p)) ↔
      (cur = Currency.USD ∧
        (isOkQ b ∨ isOkQ cb ∨ isOkQ gi ∨ isOkQ gm ∨ isOkQ kc ∨ isOkQ mx))) := by
  by_cases hcur : cur = Currency.USD
  · subst hcur
    refine ⟨?_, ?_, ?_⟩
    · simp only [ne_eq, not_true_eq_false, iff_false]
      intro hok
      by_cases hnil : finalPrices i b cb gi gm kc mx = []
      · obtain ⟨e, es, -, hrun⟩ := run_usd_empty i b cb gi gm kc mx hnil
        rw [hrun] at hok
        simp at hok
      · obtain ⟨p, hrun, -, -⟩ := run_usd_nonempty i b cb gi gm kc mx hnil
        rw [hrun] at hok
        simp at hok
    · constructor
      · rintro ⟨e, he⟩
        have hnil : finalPrices i b cb gi gm kc mx = [] := by
          by_contra hne
          obtain ⟨p, hrun, -, -⟩ := run_usd_nonempty i b cb gi gm kc mx hne
          rw [hrun] at he
          simp at he
        exact ⟨rfl, (finalPrices_eq_nil_iff i b cb gi gm kc mx).mp hnil⟩
      · rintro ⟨-, hall⟩
        have hnil : finalPrices i b cb gi gm kc mx = [] :=
          (finalPrices_eq_nil_iff i b cb gi gm kc mx).mpr hall
        obtain ⟨e, es, -, hrun⟩ := run_usd_empty i b cb gi gm kc mx hnil
        exact ⟨e, hrun⟩
    · constructor
      · rintro ⟨p, hp⟩
        refine ⟨rfl, ?_⟩
        have hne : finalPrices i b cb gi gm kc mx ≠ [] := by
          intro hnil
          obtain ⟨e, es, -, hrun⟩ := run_usd_empty i b cb gi gm kc mx hnil
          rw [hrun] at hp
          simp at hp
        rcases ok_or_err b with hb | hb
        · exact Or.inl hb
        rcases ok_or_err cb with hcb | hcb
        · exact Or.inr (Or.inl hcb)
        rcases ok_or_err gi with hgi | hgi
        · exact Or.inr (Or.inr (Or.inl hgi))
        rcases ok_or_err gm with hgm | hgm
        · exact Or.inr (Or.inr (Or.inr (Or.inl hgm)))
        rcases ok_or_err kc with hkc | hkc
        · exact Or.inr (Or.inr (Or.inr (Or.inr (Or.inl hkc))))
        rcases ok_or_err mx with hmx | hmx
        · exact Or.inr (Or.inr (Or.inr (Or.inr (Or.inr hmx))))
        exact absurd ((finalPrices_eq_nil_iff i b cb gi gm kc mx).mpr
          ⟨hb, hcb, hgi, hgm, hkc, hmx⟩) hne
      · rintro ⟨-, hsome⟩
        have hne : finalPrices i b cb gi gm kc mx ≠ [] := by
          intro hnil
          have hall := (finalPrices_eq_nil_iff i b cb gi gm kc mx).mp hnil
          rcases hsome with h | h | h | h | h | h
          · exact not_ok_and_err b ⟨h, hall.1⟩
          · exact not_ok_and_err cb ⟨h, hall.2.1⟩
          · exact not_ok_and_err gi ⟨h, hall.2.2.1⟩
          · exact not_ok_and_err gm ⟨h, hall.2.2.2.1⟩
          · exact not_ok_and_err kc ⟨h, hall.2.2.2.2.1⟩
          · exact not_ok_and_err mx ⟨h, hall.2.2.2.2.2⟩
        obtain ⟨p, hrun, -, -⟩ := run_usd_nonempty i b cb gi gm kc mx hne
        exact ⟨p, hrun⟩
  · rw [get_exchange_rate_unsupported i cur b cb gi gm kc mx hcur]
    simp [hcur]

/-- Witness for `get_exchange_rate_outcome_trichotomy`: with every venue
failing on USD the run produces an error. -/
theorem get_exchange_rate_outcome_trichotomy_witness :
    ∃ e, get_exchange_rate 0 Currency.USD
        (Except.error (Error.otherErr 0) : Except Error Binance)
        (Except.error (Error.otherErr 1)) (Except.error (Error.otherErr 2))
        (Except.error (Error.otherErr 3)) (Except.error (Error.otherErr 4))
        (Except.error (Error.otherErr 5)) = AggResult.err e :=
  (get_exchange_rate_outcome_trichotomy 0 Currency.USD
      (Except.error (Error.otherErr 0)) (Except.error (Error.otherErr 1))
      (Except.error (Error.otherErr 2)) (Except.error (Error.otherErr 3))
      (Except.error (Error.otherErr 4)) (Except.error (Error.otherErr 5))).2.1.mpr
    ⟨rfl, ⟨_, rfl⟩, ⟨_, rfl⟩, ⟨_, rfl⟩, ⟨_, rfl⟩, ⟨_, rfl⟩, ⟨_, rfl⟩⟩

/-- Sample Gemini quote used by concrete witnesses. -/
def sampleGemini : Gemini :=
  { symbol := "zecusd", «open» := 30, high := 40, low := 20, close := 35,
    changes := [], bid := 30, ask := 32 }

/-- C3: whenever the final price list is non-empty, the returned price is the
element at index `len / 2` of the ascending-sorted final price list, and it
is a member of that list — an observed mid-price, never an interpolated
average. -/
theorem median_is_exact_middle (i : Nat) (b : Except Error Binance)
    (cb : Except Error Coinbase) (gi : Except Error GateIo) (gm : Except Error Gemini)
    (kc : Except Error KuCoin) (mx : Except Error Mexc)
    (h : finalPrices i b cb gi gm kc mx ≠ []) :
    ∃ p, get_exchange_rate i Currency.USD b cb gi gm kc mx = AggResult.ok (some p) ∧
      (sortPrices (finalPrices i b cb gi gm kc mx))[(finalPrices i b cb gi gm kc mx).length / 2]?
        = some p ∧
      p ∈ finalPrices i b cb gi gm kc mx :=
  run_usd_nonempty i b cb gi gm kc mx h

/-- Witness for `median_is_exact_middle`: only Gemini succeeds, so the final
list is its mid-price alone and the run returns a price. -/
theorem median_is_exact_middle_witness :
    ∃ p, get_exchange_rate 0 Currency.USD
        (Except.error (Error.otherErr 0) : Except Error Binance)
        (Except.error (Error.otherErr 1)) (Except.error (Error.otherErr 2))
        (Except.ok sampleGemini) (Except.error (Error.otherErr 3))
        (Except.error (Error.otherErr 4)) = AggResult.ok (some p) := by
  obtain ⟨p, hp, -, -⟩ := median_is_exact_middle 0 (Except.error (Error.otherErr 0))
    (Except.error (Error.otherErr 1)) (Except.error (Error.otherErr 2))
    (Except.ok sampleGemini) (Except.error (Error.otherErr 3))
    (Except.error (Error.otherErr 4)) (by decide)
  exact ⟨p, hp⟩

/-- C4: for every combination of successes, failures and eviction draws the
final price list is empty or has odd length, and no run of
`get_exchange_rate` reaches a panic point (the `assert!` and the `expect`
both hold). -/
theorem final_odd_or_empty_and_no_panic (i : Nat) (cur : Currency)
    (b : Except Error Binance) (cb : Except Error Coinbase) (gi : Except Error GateIo)
    (gm : Except Error Gemini) (kc : Except Error KuCoin) (mx : Except Error Mexc) :
    ((finalPrices i b cb gi gm kc mx).length % 2 = 1 ∨
      finalPrices i b cb gi gm kc mx = []) ∧
    get_exchange_rate i cur b cb gi gm kc mx ≠ AggResult.panic := by
  constructor
  · by_cases h : finalPrices i b cb gi gm kc mx = []
    · exact Or.inr h
    · exact Or.inl (heldOutStep_odd_of_ne_nil i _ _ h)
  · by_cases hcur : cur = Currency.USD
    · subst hcur
      by_cases h : finalPrices i b cb gi gm kc mx = []
      · obtain ⟨e, es, -, hrun⟩ := run_usd_empty i b cb gi gm kc mx h
        rw [hrun]
        simp
      · obtain ⟨p, hrun, -, -⟩ := run_usd_nonempty i b cb gi gm kc mx h
        rw [hrun]
        simp
    · rw [get_exchange_rate_unsupported i cur b cb gi gm kc mx hcur]
      simp

/-- C5: the median computation is order-independent — on permuted inputs of
odd length, sorting then indexing the middle yields the same price. -/
theorem median_order_independent (l l' : List ℚ) (hperm : l.Perm l')
    (_hodd : l.length % 2 = 1) : medianOf l = medianOf l' := by
  have hs : sortPrices l = sortPrices l' :=
    List.eq_of_perm_of_sorted
      (((sortPrices_perm l).trans hperm).trans (sortPrices_perm l').symm)
      (sortPrices_sorted l) (sortPrices_sorted l')
  unfold medianOf
  rw [hs, hperm.length_eq]

/-- Witness for `median_order_independent` on a concrete permutation. -/
theorem median_order_independent_witness :
    medianOf [3, 1, 2] = medianOf [2, 3, 1] :=
  median_order_independent [3, 1, 2] [2, 3, 1] (by decide) (by decide)

/-- C6: every adapter's contributed price is the midpoint of that venue's
quoted best bid and best ask fields, computed exactly. -/
theorem price_is_bid_ask_midpoint :
    (∀ b : Binance, ExchangeData.price b = (b.bidPrice + b.askPrice) / 2) ∧
    (∀ c : Coinbase, ExchangeData.price c = (c.bid + c.ask) / 2) ∧
    (∀ g : GateIo, ExchangeData.price g = (g.highest_bid + g.lowest_ask) / 2) ∧
    (∀ g : Gemini, ExchangeData.price g = (g.bid + g.ask) / 2) ∧
    (∀ k : KuCoin, ExchangeData.price k = (k.buy + k.sell) / 2) ∧
    (∀ m : Mexc, ExchangeData.price m = (m.bidPrice + m.askPrice) / 2) :=
  ⟨fun _ => rfl, fun _ => rfl, fun _ => rfl, fun _ => rfl, fun _ => rfl, fun _ => rfl⟩

/-- C7: with a successfully fetched and decoded body, the GateIo query fails
with the `410 Gone` sentinel exactly when the body is the empty list, and
returns the first element otherwise. -/
theorem gateio_empty_body_gone (body : List GateIo) :
    (GateIo.query (Except.ok body) =
        Except.error (Error.http (HttpError.unsuccessful 410)) ↔ body = []) ∧
    (∀ t ts, body = t :: ts → GateIo.query (Except.ok body) = Except.ok t) := by
  cases body with
  | nil =>
      refine ⟨by simp [GateIo.query, statusGone], ?_⟩
      intro t ts h
      cases h
  | cons x xs =>
      refine ⟨by simp [GateIo.query], ?_⟩
      intro t ts h
      cases h
      rfl

/-- Sample GateIo quote used by concrete witnesses. -/
def sampleGateIo : GateIo :=
  { currency_pair := "ZEC_USDT", last := 30, lowest_ask := 31, highest_bid := 29,
    change_percentage := 0, base_volume := 100, quote_volume := 100,
    high_24h := 32, low_24h := 28 }

/-- Witness for `gateio_empty_body_gone`: the empty body yields the 410
sentinel, a one-element body yields its element. -/
theorem gateio_empty_body_gone_witness :
    GateIo.query (Except.ok ([] : List GateIo)) =
        Except.error (Error.http (HttpError.unsuccessful 410)) ∧
      GateIo.query (Except.ok [sampleGateIo]) = Except.ok sampleGateIo :=
  ⟨(gateio_empty_body_gone []).1.mpr rfl,
    (gateio_empty_body_gone [sampleGateIo]).2 sampleGateIo [] rfl⟩

/-- C9: when all six venues fail, the surfaced error is the first one in the
partition order Binance, Coinbase, GateIo, KuCoin, Mexc — Binance's — and
the recorded error list is exactly those five in order; Gemini's error
(universally quantified here, absent on the right-hand sides) is never
appended and can never be the representative. -/
theorem all_failed_surfaces_first_nonheldout_error (i : Nat)
    (eb ec eg egem ek em : Error) :
    get_exchange_rate i Currency.USD (Except.error eb) (Except.error ec)
        (Except.error eg) (Except.error egem) (Except.error ek) (Except.error em)
      = AggResult.err eb ∧
    (othersAndErrors (Except.error eb) (Except.error ec) (Except.error eg)
        (Except.error ek) (Except.error em)).2 = [eb, ec, eg, ek, em] :=
  ⟨rfl, rfl⟩

/-- C10: whenever the Gemini query succeeds, its mid-price is a member of the
final price list — indeed its last element — because eviction acts only on
the other venues' prices, strictly before the held-out price is appended. -/
theorem gemini_mid_member_of_final (i : Nat) (b : Except Error Binance)
    (cb : Except Error Coinbase) (gi : Except Error GateIo) (g : Gemini)
    (kc : Except Error KuCoin) (mx : Except Error Mexc) :
    ExchangeData.price g ∈ finalPrices i b cb gi (Except.ok g) kc mx ∧
    (finalPrices i b cb gi (Except.ok g) kc mx).getLast?
      = some (ExchangeData.price g) := by
  have heq : finalPrices i b cb gi (Except.ok g) kc mx =
      (if (othersAndErrors b cb gi kc mx).1.length % 2 ≠ 0 then
        evict_random i (othersAndErrors b cb gi kc mx).1
      else (othersAndErrors b cb gi kc mx).1) ++ [ExchangeData.price g] := rfl
  rw [heq]
  exact ⟨by simp, List.getLast?_concat _⟩

end ExchangeRate
